import Mathlib

/-!
Verification of the StreamingJsonParser repository against its specification.

The definitions below are a shallow embedding of `src/StreamingJsonParser.ts`
(the `StreamingJsonParser` class) and `src/utils/PathTrie.ts`.  JavaScript
strings become `List Char`, numbers become `ℚ` (the documents exercised use
only small integers, exact in IEEE doubles), JS `undefined` becomes `none` in
an `Option`, and the mutable fields of the class become a state record that
every operation threads explicitly.  Thrown exceptions become `Except`.

Modelling notes, stated once here:
* Output-stream serialization (`writeToStream`, `createPartialObject` on the
  stream path), the statistics counters other than the current depth, adaptive
  chunk sizing (off by default), `end()`, and the `data`-event projection
  through `createPartialObject` are not modelled; no run stated in the
  theorems below reaches them (in particular no run ever emits a `data` event
  while a selective-path filter is set).
* In the class, a container object is linked into its parent when it is
  opened and then mutated in place; the embedding keeps open containers on a
  zipper-style stack and plugs the finished child into the parent slot when
  the container closes, which is observationally identical because the parent
  is never read between open and close in any modelled observation, and
  because every stated run has no transforms and no reviver (so the value
  linked at open time is the container itself).
* Assigning a property on a primitive root (`rootObject[key] = v` when
  `rootObject` is not an object) would raise a `TypeError` in strict-mode JS;
  the embedding makes it a no-op.  No stated run reaches that corner.
-/

namespace SJP

/-- A JSON value as built by the parser.  Numbers are exact rationals. -/
inductive Json where
  | null
  | bool (b : Bool)
  | num (q : ℚ)
  | str (s : String)
  | arr (elems : List Json)
  | obj (entries : List (String × Json))

/-- The errors the embedded code can raise (JS `throw new Error(msg)`),
identified by their payload; `errMessage` recovers the literal message. -/
inductive PError where
  | depthExceeded (n : ℕ)
  | invalidPath (p : String)
deriving DecidableEq

/-- The literal `Error` message the source builds for each raised error. -/
def errMessage : PError → String
  | .depthExceeded n => "Maximum depth of " ++ toString n ++ " exceeded"
  | .invalidPath p => "Invalid path: " ++ p

/-! ### String splitting on dots

JavaScript `s.split(".")`: the embedding avoids `String.splitOn` and uses its
own structural recursion with the same semantics (`"" ↦ [""]`,
`"a..b" ↦ ["a","","b"]`, `"a." ↦ ["a",""]`). -/

def splitAux : List Char → List Char → List String
  | [], acc => [String.mk acc.reverse]
  | c :: rest, acc =>
    if c = ('.') then String.mk acc.reverse :: splitAux rest []
    else splitAux rest (c :: acc)

/-- JS `path.split(".")`. -/
def splitDots (s : String) : List String := splitAux s.data []

/-- The character class of the validation regex `^[a-zA-Z0-9.]+$` in
`setSelectivePaths` (ASCII letters, digits, and the dot; note the regex does
not include the `*` wildcard). -/
def validPathChar (c : Char) : Bool := c.isAlpha || c.isDigit || c = ('.')

/-- JS `/^[a-zA-Z0-9.]+$/.test(path)`: nonempty and every character in the
class. -/
def validPath (s : String) : Bool := !s.data.isEmpty && s.data.all validPathChar

/-! ### PathTrie (`src/utils/PathTrie.ts`)

Children keep JS `Map` insertion order, as an association list. -/

/-- The path-pattern trie of `PathTrie`. -/
inductive Trie where
  | node (isEnd : Bool) (children : List (String × Trie))

/-- Look a segment up among a node's children (JS `children.get(segment)`). -/
def lookupChild (s : String) : List (String × Trie) → Option Trie
  | [] => none
  | (k, t) :: rest => if k = s then some t else lookupChild s rest

/-- Replace the child at a key, keeping its position (JS `Map.set` on an
existing key), or append a new child. -/
def setChild (s : String) (t : Trie) : List (String × Trie) → List (String × Trie)
  | [] => [(s, t)]
  | (k, t0) :: rest => if k = s then (s, t) :: rest else (k, t0) :: setChild s t rest

/-- `PathTrie.addPath`: walk the segments, creating nodes, and mark the last
node end-of-path. -/
def Trie.addPath : Trie → List String → Trie
  | .node _ cs, [] => .node true cs
  | .node e cs, s :: rest =>
    let child := match lookupChild s cs with
      | some t => t
      | none => .node false []
    .node e (setChild s (child.addPath rest) cs)

/-- `PathTrie.hasPath`: walk the segments through literal child lookups and
report the final node's end-of-path flag.  (No wildcard handling and no
prefix acceptance: a missing child is `false`, an interior node is `false`.) -/
def Trie.hasPath : Trie → List String → Bool
  | .node e _, [] => e
  | .node _ cs, s :: rest =>
    match lookupChild s cs with
    | none => false
    | some t => t.hasPath rest

/-- An empty trie, as `new PathTrie()` constructs. -/
def Trie.empty : Trie := .node false []

/-- Register a list of already-split patterns, in order. -/
def buildTrie (paths : List (List String)) : Trie :=
  paths.foldl Trie.addPath Trie.empty

/-! ### Aggregations -/

/-- The five aggregation kinds of `AggregationType`. -/
inductive AggType where
  | count
  | sum
  | average
  | minA
  | maxA
deriving DecidableEq

/-- One `Aggregation` record: kind, running value, and the running count used
by `average` (JS `count` starts out `undefined`). -/
structure Agg where
  type : AggType
  value : ℚ
  count : Option ℕ
deriving DecidableEq

/-- `updateAggregation`: non-numeric values return unchanged; numeric values
update the accumulator by kind.  `average` computes
`(value * count + v) / (count + 1)` and bumps the count. -/
def updateAggregation (a : Agg) (v : Json) : Agg :=
  match v with
  | .num q =>
    match a.type with
    | .count => { a with value := a.value + 1 }
    | .sum => { a with value := a.value + q }
    | .average =>
      let c : ℕ := a.count.getD 0
      { a with value := (a.value * c + q) / (c + 1), count := some (c + 1) }
    | .minA => { a with value := min a.value q }
    | .maxA => { a with value := max a.value q }
  | _ => a

/-! ### Path matching for transforms and aggregations -/

/-- `pathMatches(currentPath, transformPath)`: split the pattern on dots,
require equal length, and require each pattern segment to be `*` or equal to
the path segment at its position. -/
def pathMatches (currentPath : List String) (transformPath : String) : Bool :=
  let segs := splitDots transformPath
  currentPath.length = segs.length &&
    (segs.zip currentPath).all fun sc => sc.1 = ("*") || sc.1 = sc.2

/-- One registered transform rule (`Transform`): a dotted pattern and a
function of the value, its key (JS `path[path.length - 1]`, `undefined` on an
empty path), and the full path. -/
structure TransformR where
  path : String
  fn : Json → Option String → List String → Json

/-- `applyTransforms`: fold the registered rules in order, applying each rule
whose pattern matches the current path to the running value. -/
def applyTransforms (ts : List TransformR) (path : List String) (v : Json) : Json :=
  ts.foldl (fun acc t => if pathMatches path t.path then t.fn acc path.getLast? path else acc) v

/-! ### Character helpers

JS `this.buffer[i]` on an out-of-range index yields `undefined`; the embedding
reads through `Option Char`, with `none` for `undefined`.  Comparisons against
`undefined` are `false`, exactly as in JS. -/

/-- `isDigit(char)`: `'0' <= c && c <= '9'`. -/
def isDigit (c : Char) : Bool := ('0') ≤ c && c ≤ ('9')

/-- `this.buffer[i]` (`undefined` out of range). -/
def charAt (buf : List Char) (i : ℕ) : Option Char := buf.get? i

/-- `isDigit` lifted to a possibly-`undefined` character. -/
def isDigitO : Option Char → Bool
  | some c => isDigit c
  | none => false

/-- `isStartOfValue(char)`: the regex `/[tfn0-9-]/`. -/
def isStartOfValue (c : Char) : Bool :=
  c = ('t') || c = ('f') || c = ('n') || c = ('-') || isDigit c

/-! ### `isCompleteToken` and its helpers (buffer-only, stateless) -/

/-- Bracket-matching pass of `isBalancedBracket`, over an explicit stack of
openers. -/
def balAux : List Char → List Char → Bool
  | [], stk => stk.isEmpty
  | c :: rest, stk =>
    if c = ('{') || c = ('[') then balAux rest (c :: stk)
    else if c = ('}') || c = (']') then
      match stk with
      | [] => false
      | last :: stk' =>
        if (c = ('}') && last ≠ ('{')) || (c = (']') && last ≠ ('[')) then false
        else balAux rest stk'
    else balAux rest stk

/-- `isBalancedBracket(index)`: the brackets in `buffer[0..index]` balance out
exactly. -/
def isBalancedBracket (buf : List Char) (index : ℕ) : Bool :=
  balAux (buf.take (index + 1)) []

/-- Search of `isCompleteString`: a quote whose predecessor is not a
backslash, tracking the previous character. -/
def icsAux : Char → List Char → Bool
  | _, [] => false
  | prev, c :: rest => if c = ('"') && prev ≠ ('\\') then true else icsAux c rest

/-- `isCompleteString(index)`: a closing quote exists after the opening quote
at `index`. -/
def isCompleteString (buf : List Char) (index : ℕ) : Bool :=
  icsAux ((charAt buf index).getD (' ')) (buf.drop (index + 1))

/-- `isCompleteKeyword(index, keyword)`: `buffer.slice(index, index + keyword.length) === keyword`. -/
def isCompleteKeyword (buf : List Char) (index : ℕ) (keyword : String) : Bool :=
  (buf.drop index).take keyword.length = keyword.data

/-- `while (i < length && isDigit(buffer[i])) i++`, as a drop. -/
def skipDigits : List Char → List Char
  | [] => []
  | c :: rest => if isDigit c then skipDigits rest else c :: rest

/-- `isCompleteNumber(index)`, literally: skip an optional minus, the integer
digits, a fractional part (`false` if a dot is not followed by a digit), an
exponent (`false` if `e`/`E` and optional sign are not followed by a digit);
the number is complete when something was consumed and the following
character (possibly `undefined` at buffer end) cannot extend it. -/
def isCompleteNumber (buf : List Char) (index : ℕ) : Bool :=
  let s0 := buf.drop index
  let s1 := match s0 with
    | c :: rest => if c = ('-') then rest else s0
    | [] => s0
  let s2 := skipDigits s1
  match (match s2 with
    | c :: rest => if c = ('.') then (if isDigitO rest.head? then some (skipDigits rest) else none)
                   else some s2
    | [] => some s2) with
  | none => false
  | some s4 =>
    match (match s4 with
      | c :: rest =>
        if c = ('e') || c = ('E') then
          let r2 := match rest with
            | d :: r' => if d = ('+') || d = ('-') then r' else rest
            | [] => rest
          if isDigitO r2.head? then some (skipDigits r2) else none
        else some s4
      | [] => some s4) with
    | none => false
    | some s7 =>
      decide (s7.length < s0.length) &&
        !isDigitO s7.head? && s7.head? ≠ some ('.') &&
        s7.head? ≠ some ('e') && s7.head? ≠ some ('E')

/-- `isCompleteToken(index)`: dispatch on the character at `index`
(out-of-range is `false`; characters other than brackets, quotes, keyword
starts and number starts count as complete). -/
def isCompleteToken (buf : List Char) (index : ℕ) : Bool :=
  match charAt buf index with
  | none => false
  | some c =>
    if c = ('{') || c = ('[') then true
    else if c = ('}') || c = (']') then isBalancedBracket buf index
    else if c = ('"') then isCompleteString buf index
    else if c = ('t') then isCompleteKeyword buf index ("true")
    else if c = ('f') then isCompleteKeyword buf index ("false")
    else if c = ('n') then isCompleteKeyword buf index ("null")
    else if isDigit c || c = ('-') then isCompleteNumber buf index
    else true

/-! ### `parseValue` (the regex `^-?\d+(\.\d+)?([eE][+-]?\d+)?` plus keywords) -/

/-- Leading digits of a suffix, with the remainder. -/
def takeDigits : List Char → List Char × List Char
  | [] => ([], [])
  | c :: rest =>
    if isDigit c then
      let (ds, r) := takeDigits rest
      (c :: ds, r)
    else ([], c :: rest)

/-- Numeric value of a digit string. -/
def digitsToNat (ds : List Char) : ℕ :=
  ds.foldl (fun acc c => acc * 10 + (c.toNat - ('0').toNat)) 0

/-- Exact value of the decimal the number regex matched:
`(int + frac/10^fracLen) * 10^(±exp)`, negated under a leading minus. -/
def decimalValue (neg : Bool) (intDs fracDs : List Char) (expNeg : Bool)
    (expDs : List Char) : ℚ :=
  let base : ℚ := (digitsToNat intDs : ℚ) + (digitsToNat fracDs : ℚ) / ((10 : ℚ) ^ fracDs.length)
  let e : ℕ := digitsToNat expDs
  let scaled : ℚ := if expNeg then base / ((10 : ℚ) ^ e) else base * ((10 : ℚ) ^ e)
  if neg then -scaled else scaled

/-- Match of the number regex against a suffix: the exact value and the
matched length, or `none` when the regex fails (no leading digit).  The
fractional and exponent groups backtrack exactly as the regex does: they are
taken only when fully present. -/
def matchNumber (s : List Char) : Option (ℚ × ℕ) :=
  let (neg, s1) := match s with
    | c :: rest => if c = ('-') then (true, rest) else (false, s)
    | [] => (false, s)
  let (intDs, s2) := takeDigits s1
  if intDs.isEmpty then none
  else
    let (fracDs, s3) := match s2 with
      | c :: rest =>
        if c = ('.') then
          let (ds, r) := takeDigits rest
          if ds.isEmpty then ([], s2) else (ds, r)
        else ([], s2)
      | [] => ([], s2)
    let (expNeg, expDs, s4) := match s3 with
      | c :: rest =>
        if c = ('e') || c = ('E') then
          let (en, r1) := match rest with
            | d :: r' => if d = ('-') then (true, r') else if d = ('+') then (false, r') else (false, rest)
            | [] => (false, rest)
          let (ds, r2) := takeDigits r1
          if ds.isEmpty then (false, ([] : List Char), s3) else (en, ds, r2)
        else (false, ([] : List Char), s3)
      | [] => (false, ([] : List Char), s3)
    let len := s.length - s4.length
    some (decimalValue neg intDs fracDs expNeg expDs, len)

/-- Leading-prefix test on character lists (JS `str.startsWith`). -/
def startsWithL (s : List Char) (p : String) : Bool :=
  (s.take p.length) = p.data

/-- `parseValue(str)`: keywords `true`/`false`/`null`, then the number regex,
then the fallback `{ value: null, length: 1 }` that skips one character. -/
def parseValue (s : List Char) : Json × ℕ :=
  if startsWithL s ("true") then (.bool true, 4)
  else if startsWithL s ("false") then (.bool false, 5)
  else if startsWithL s ("null") then (.null, 4)
  else
    match matchNumber s with
    | some (q, len) => (.num q, len)
    | none => (.null, 1)

/-! ### `removeComments` (the replace of `/\/\/.*|\/\*[\s\S]*?\*\//g`) -/

/-- Drop through the first `*/`, returning the remainder, or `none` when the
comment never closes (then the regex alternative fails to match). -/
def findClose : List Char → Option (List Char)
  | ('*') :: ('/') :: rest => some rest
  | _ :: rest => findClose rest
  | [] => none

/-- `removeComments(input)`, fuelled by the input length (each step consumes
at least one character, so the fuel never runs out; the fuel-exhausted branch
returns the rest unchanged). -/
def removeCommentsAux : ℕ → List Char → List Char
  | 0, cs => cs
  | fuel + 1, cs =>
    match cs with
    | [] => []
    | ('/') :: ('/') :: rest =>
      -- `//.*` consumes to the end of the line; the newline itself stays.
      removeCommentsAux fuel (rest.dropWhile (fun c => c ≠ ('\n')))
    | ('/') :: ('*') :: rest =>
      (match findClose rest with
       | some rest' => removeCommentsAux fuel rest'
       | none => ('/') :: removeCommentsAux fuel (('*') :: rest))
    | c :: rest => c :: removeCommentsAux fuel rest

/-- `removeComments` on character lists. -/
def removeComments (cs : List Char) : List Char :=
  removeCommentsAux (cs.length + 1) cs

/-! ### Parser state

The mutable fields of the `StreamingJsonParser` instance.  Open containers
live on `stack` (head = innermost).  Each open container records how it was
linked into its parent when it was opened (`Link`); the finished child is
plugged into that slot when the container closes.  `rootObject` is `root`:
either an explicit value (`Option Json`, `none` for JS `undefined`), or an
alias of the currently-open bottom-of-stack container (`bottom`), or an
object with that open container linked at a key (`bottomUnder`). -/

/-- Contents of one open container. -/
inductive Frame where
  | objF (entries : List (String × Json))
  | arrF (elems : List Json)

/-- How an open container was linked into its parent when opened. -/
inductive Link where
  | atKey (k : String)
  | inArr
  | unlinked

/-- One open container: its contents so far and its link into its parent. -/
structure OpenC where
  frame : Frame
  link : Link

/-- The `rootObject` field. -/
inductive RootSlot where
  | val (v : Option Json)
  | bottom
  | bottomUnder (entries : List (String × Json)) (k : String)

/-- The instance fields of the class that the modelled behaviour reads or
writes.  Fixed options (`maxDepth`, `allowComments`, ...), which the
constructor sets, live here too.  `maxDepth = none` is the default
`Infinity`. -/
structure Core where
  buffer : List Char := []
  lastCompleteToken : ℕ := 0
  isInString : Bool := false
  isEscaped : Bool := false
  stringBuffer : List Char := []
  currentKey : Option String := none
  stack : List OpenC := []
  root : RootSlot := .val (some (.obj []))
  isComplete : Bool := false
  currentPath : List String := []
  currentDepth : ℤ := 0
  maxDepth : Option ℕ := none
  allowComments : Bool := false
  selectivePaths : Option Trie := none
  transforms : List TransformR := []
  aggregations : List (String × Agg) := []
  reviver : Option (String → Json → Json) := none

/-- The full observable state: the instance fields plus the event log
(`data` events carry `Option Json`, `none` for an emitted `undefined`;
`error` events carry the raised error). -/
structure PState where
  core : Core := {}
  dataEvents : List (Option Json) := []
  errors : List PError := []

/-- The JSON value of a frame's contents. -/
def frameJson : Frame → Json
  | .objF es => .obj es
  | .arrF es => .arr es

/-- Set a key in an object's entry list: replace in place when present
(JS property assignment keeps the original position), else append. -/
def objSet (es : List (String × Json)) (k : String) (v : Json) : List (String × Json) :=
  match es with
  | [] => [(k, v)]
  | (k0, v0) :: rest => if k0 = k then (k0, v) :: rest else (k0, v0) :: objSet rest k v

/-- Plug a finished child value into its parent frame through its link. -/
def plugFrame (parent : OpenC) (link : Link) (child : Json) : OpenC :=
  match parent.frame, link with
  | .objF es, .atKey k => { parent with frame := .objF (objSet es k child) }
  | .arrF es, .inArr => { parent with frame := .arrF (es ++ [child]) }
  | _, _ => parent

/-- Value of the bottom-of-stack container with every open descendant plugged
into its slot, used when `rootObject` (an alias of that container) is read. -/
def reconAux : Json → Link → List OpenC → Json
  | j, _, [] => j
  | j, l, f :: rest => reconAux (frameJson (plugFrame f l j).frame) f.link rest

/-- Snapshot of the open-container stack's bottom container. -/
def reconStack : List OpenC → Json
  | [] => .obj []
  | f :: rest => reconAux (frameJson f.frame) f.link rest

/-- The current value of `rootObject` (`getCurrentJson` and the `data`
emission read this). -/
def rootSnapshot (c : Core) : Option Json :=
  match c.root with
  | .val v => v
  | .bottom => some (reconStack c.stack)
  | .bottomUnder es k => some (.obj (objSet es k (reconStack c.stack)))

/-- `shouldParseCurrentPath`: no filter means everything is included;
otherwise `selectivePaths.hasPath(currentPath)`. -/
def shouldParseCurrentPath (c : Core) : Bool :=
  match c.selectivePaths with
  | none => true
  | some t => t.hasPath c.currentPath

/-- `checkDepth`: raise `Maximum depth of N exceeded` when the current depth
has reached `maxDepth` (never with the default `Infinity`). -/
def checkDepth (c : Core) : Option PError :=
  match c.maxDepth with
  | none => none
  | some n => if (n : ℤ) ≤ c.currentDepth then some (.depthExceeded n) else none

/-- `updateAggregations(path, value)`: update every registered aggregation
whose pattern matches the path. -/
def updateAggregations (c : Core) (path : List String) (v : Json) : Core :=
  { c with aggregations :=
      c.aggregations.map fun pa =>
        if pathMatches path pa.1 then (pa.1, updateAggregation pa.2 v) else pa }

/-- Apply the configured reviver, as `addValue` does
(`reviver(currentKey || "", value)`). -/
def applyReviver (c : Core) (v : Json) : Json :=
  match c.reviver with
  | some f => f (c.currentKey.getD ("")) v
  | none => v

/-- `addValue(value)` for a finalized leaf value: the selective-path gate,
transforms, aggregations, reviver, then storage — into the root (completing a
top-level value) when the stack is empty, else into the innermost open
container; a keyless string inside an object becomes the pending key. -/
def addValue (c : Core) (v0 : Json) : Core :=
  if !shouldParseCurrentPath c then c
  else
    let v1 := applyTransforms c.transforms c.currentPath v0
    let c := updateAggregations c c.currentPath v1
    let v := applyReviver c v1
    match c.stack with
    | [] =>
      match c.currentKey with
      | some k =>
        -- `rootObject[currentKey] = value` (a no-op on a non-object root;
        -- see the modelling notes), then clear the key and mark complete.
        let root' := match c.root with
          | .val (some (.obj es)) => RootSlot.val (some (.obj (objSet es k v)))
          | r => r
        { c with root := root', currentKey := none, isComplete := true }
      | none => { c with root := .val (some v), isComplete := true }
    | f :: rest =>
      match f.frame with
      | .arrF es => { c with stack := { f with frame := .arrF (es ++ [v]) } :: rest }
      | .objF es =>
        match c.currentKey with
        | some k =>
          { c with stack := { f with frame := .objF (objSet es k v) } :: rest,
                   currentKey := none }
        | none =>
          match v with
          | .str s => { c with currentKey := some s }
          | _ => c

/-- The `addValue(newContainer)`-and-push step shared by `startObject` and
`startArray`: run the materialization pipeline on the new empty container,
record where it was linked (the parent slot it will be plugged into on
close), and push it.  When the selective-path gate rejects the current path
(reachable only from `startArray`, which has no outer gate), `addValue`
returns early and the container is pushed unlinked, with no other state
change. -/
def openContainer (c : Core) (isObj : Bool) : Core :=
  let newFrame : Frame := if isObj then .objF [] else .arrF []
  if !shouldParseCurrentPath c then
    { c with stack := ⟨newFrame, .unlinked⟩ :: c.stack }
  else
  let v0 : Json := if isObj then .obj [] else .arr []
  let v1 := applyTransforms c.transforms c.currentPath v0
  let c := updateAggregations c c.currentPath v1
  -- The reviver is also applied here in the source; with no reviver (every
  -- stated run) it is the identity, and the linked value is the container.
  match c.stack with
  | [] =>
    match c.currentKey with
    | some k =>
      let (root', link) : RootSlot × Link := match c.root with
        | .val (some (.obj es)) => (RootSlot.bottomUnder es k, Link.unlinked)
        | r => (r, Link.unlinked)
      { c with root := root', currentKey := none, isComplete := true,
               stack := [⟨newFrame, link⟩] }
    | none =>
      { c with root := .bottom, isComplete := true, stack := [⟨newFrame, .unlinked⟩] }
  | f :: _ =>
    match f.frame with
    | .arrF _ => { c with stack := ⟨newFrame, .inArr⟩ :: c.stack }
    | .objF _ =>
      match c.currentKey with
      | some k =>
        { c with stack := ⟨newFrame, .atKey k⟩ :: c.stack, currentKey := none }
      | none => { c with stack := ⟨newFrame, .unlinked⟩ :: c.stack }

/-- `startObject`: the selective-path gate, the depth check (which throws),
then open-and-link, bump the depth, and push `currentKey || ""` onto the
current path — the key has already been consumed by the `addValue` call, so
the pushed segment is `""` whenever a key was pending. -/
def startObject (c : Core) : Except (Core × PError) Core :=
  if !shouldParseCurrentPath c then .ok c
  else
    match checkDepth c with
    | some e => .error (c, e)
    | none =>
      let c1 := openContainer c true
      .ok { c1 with currentDepth := c1.currentDepth + 1,
                    currentPath := c1.currentPath ++ [c1.currentKey.getD ("")] }

/-- `startArray`: no selective-path gate and no path push; depth check, then
open-and-link and bump the depth. -/
def startArray (c : Core) : Except (Core × PError) Core :=
  match checkDepth c with
  | some e => .error (c, e)
  | none =>
    let c1 := openContainer c false
    .ok { c1 with currentDepth := c1.currentDepth + 1 }

/-- `endContainer`: the selective-path gate, pop the innermost container
(popping an empty stack yields JS `undefined`), mark complete and set
`rootObject` when the stack empties, plug the finished child into its parent
otherwise, decrement the depth, and pop the current path. -/
def endContainer (c : Core) : Core :=
  if !shouldParseCurrentPath c then c
  else
    match c.stack with
    | [] =>
      { c with isComplete := true, root := .val none,
               currentDepth := c.currentDepth - 1,
               currentPath := c.currentPath.dropLast }
    | [f] =>
      { c with stack := [], isComplete := true,
               root := .val (some (frameJson f.frame)),
               currentDepth := c.currentDepth - 1,
               currentPath := c.currentPath.dropLast }
    | f :: f' :: rest =>
      { c with stack := plugFrame f' f.link (frameJson f.frame) :: rest,
               currentDepth := c.currentDepth - 1,
               currentPath := c.currentPath.dropLast }

/-! ### The `parseBuffer` scan loop -/

/-- One iteration of the `parseBuffer` loop at buffer position `i` with
character `ch`: the in-string state machine, the structural-character switch,
or a value start (`parseValue` on the buffer suffix).  Returns the new state
and how far `i` advances (1 except for a parsed value, which advances by its
matched length). -/
def stepChar (buf : List Char) (i : ℕ) (ch : Char) (c : Core) :
    Except (Core × PError) (Core × ℕ) :=
  if c.isInString then
    let c1 :=
      if ch = ('"') && !c.isEscaped then
        let c' := addValue { c with isInString := false } (.str (String.mk c.stringBuffer))
        { c' with stringBuffer := [] }
      else { c with stringBuffer := c.stringBuffer ++ [ch] }
    .ok ({ c1 with isEscaped := ch = ('\\') && !c.isEscaped }, 1)
  else if ch = ('{') then (startObject c).map (·, 1)
  else if ch = ('[') then (startArray c).map (·, 1)
  else if ch = ('}') || ch = (']') then .ok (endContainer c, 1)
  else if ch = (':') then .ok (c, 1)
  else if ch = (',') then .ok ({ c with currentKey := none }, 1)
  else if ch = ('"') then .ok ({ c with isInString := true }, 1)
  else if ch = (' ') || ch = ('\n') || ch = ('\r') || ch = ('\t') then .ok (c, 1)
  else if isStartOfValue ch then
    let (v, len) := parseValue (buf.drop i)
    .ok (addValue c v, len)
  else .ok (c, 1)

/-- The `for` loop of `parseBuffer`, fuelled by the buffer length (every step
advances `i` by at least one, so the fuel suffices; the exhausted branch
returns the state unchanged).  After each step the loop records
`lastCompleteToken = i + 1` when `isCompleteToken(i)` holds at the step's
final position. -/
def scanLoop : ℕ → List Char → ℕ → Core → Except (Core × PError) Core
  | 0, _, _, c => .ok c
  | fuel + 1, buf, i, c =>
    match charAt buf i with
    | none => .ok c
    | some ch =>
      match stepChar buf i ch c with
      | .error e => .error e
      | .ok (c', adv) =>
        let j := i + adv - 1
        let c'' := if isCompleteToken buf j then { c' with lastCompleteToken := j + 1 } else c'
        scanLoop fuel buf (i + adv) c''

/-- `parseBuffer`: scan the whole buffer; on success slice off the consumed
prefix and, when a top-level value completed, emit its snapshot as a `data`
event and reset the root to a fresh `{}`.  A thrown error is caught and
emitted as an `error` event, with the buffer left unsliced. -/
def parseBuffer (st : PState) : PState :=
  match scanLoop (st.core.buffer.length + 1) st.core.buffer 0 st.core with
  | .error (c, e) => { st with core := c, errors := st.errors ++ [e] }
  | .ok c =>
    let c1 := { c with buffer := c.buffer.drop c.lastCompleteToken, lastCompleteToken := 0 }
    if c1.isComplete then
      { st with
        core := { c1 with isComplete := false, root := .val (some (.obj [])) },
        dataEvents := st.dataEvents ++ [rootSnapshot c1] }
    else { st with core := c1 }

/-- `process(chunk)` with the default chunk sizing (no adaptive sizer):
strip comments when enabled, append the chunk to the buffer, and parse. -/
def process (st : PState) (chunk : String) : PState :=
  let cs := if st.core.allowComments then removeComments chunk.data else chunk.data
  parseBuffer { st with core := { st.core with buffer := st.core.buffer ++ cs } }

/-- Successive `process` calls, one per chunk. -/
def processAll (st : PState) (chunks : List String) : PState :=
  chunks.foldl process st

/-- `getCurrentJson()`: the current `rootObject`. -/
def getCurrentJson (st : PState) : Option Json := rootSnapshot st.core

/-- `setSelectivePaths(paths)`: validate every path against
`^[a-zA-Z0-9.]+$` (throwing `Invalid path: <path>` at the first failure,
before any registration), then build a fresh trie from the dot-split paths. -/
def setSelectivePaths (st : PState) (paths : List String) : Except PError PState :=
  match paths.find? (fun p => !validPath p) with
  | some p => .error (.invalidPath p)
  | none =>
    .ok { st with core :=
      { st.core with selectivePaths := some (buildTrie (paths.map splitDots)) } }

/-- JS `Map.set`: replace at the original position or append. -/
def aggSet (path : String) (a : Agg) : List (String × Agg) → List (String × Agg)
  | [] => [(path, a)]
  | (p, a0) :: rest => if p = path then (p, a) :: rest else (p, a0) :: aggSet path a rest

/-- `addAggregation(path, type)`: register an accumulator with value `0` and
no count yet. -/
def addAggregation (c : Core) (path : String) (t : AggType) : Core :=
  { c with aggregations := aggSet path ⟨t, 0, none⟩ c.aggregations }

/-- `getAggregationResults()`: the registered patterns with their current
values. -/
def getAggregationResults (st : PState) : List (String × ℚ) :=
  st.core.aggregations.map fun pa => (pa.1, pa.2.value)

/-! ### Reference JSON parser

Modelled from the spec: the "standard-library JSON parse" that the round-trip
property compares against (`JSON.parse`; the standard library itself is an
external collaborator, not part of `src/`).  A plain recursive-descent parser
for RFC 8259 documents: whitespace, `null`/`true`/`false`, strings with
escape decoding, numbers (no leading zeros, exact rational value), arrays and
objects; `none` on any malformed document or trailing garbage. -/

/-- JSON whitespace. -/
def refWs (c : Char) : Bool := c = (' ') || c = ('\n') || c = ('\r') || c = ('\t')

/-- Skip leading JSON whitespace. -/
def refSkipWs : List Char → List Char
  | [] => []
  | c :: rest => if refWs c then refSkipWs rest else c :: rest

/-- Decode one simple escape character. -/
def refUnescape : Char → Option Char
  | '"' => some ('"')
  | '\\' => some ('\\')
  | '/' => some ('/')
  | 'n' => some ('\n')
  | 't' => some ('\t')
  | 'r' => some ('\r')
  | 'b' => some (Char.ofNat 8)
  | 'f' => some (Char.ofNat 12)
  | _ => none

/-- String body after the opening quote, decoding escapes (`\uXXXX` is not
needed by any stated document and rejects). -/
def refStrAux : ℕ → List Char → List Char → Option (String × List Char)
  | 0, _, _ => none
  | _ + 1, _, [] => none
  | fuel + 1, acc, c :: rest =>
    if c = ('"') then some (String.mk acc.reverse, rest)
    else if c = ('\\') then
      match rest with
      | [] => none
      | e :: rest' =>
        match refUnescape e with
        | some d => refStrAux fuel (d :: acc) rest'
        | none => none
    else refStrAux fuel (c :: acc) rest

/-- A JSON number per the RFC grammar: optional minus, `0` or a nonzero-led
digit run, optional fraction, optional exponent; exact rational value. -/
def refNumber (s : List Char) : Option (ℚ × List Char) :=
  let (neg, s1) := match s with
    | c :: rest => if c = ('-') then (true, rest) else (false, s)
    | [] => (false, s)
  let (intDs, s2) := takeDigits s1
  match intDs with
  | [] => none
  | d :: ds =>
    if d = ('0') && !ds.isEmpty then none
    else
      let (fracDs, s3) := match s2 with
        | c :: rest =>
          if c = ('.') then
            let (fs, r) := takeDigits rest
            if fs.isEmpty then ([], s2) else (fs, r)
          else ([], s2)
        | [] => ([], s2)
      let fracOk := match s2 with
        | c :: _ => !(c = ('.') && fracDs.isEmpty)
        | [] => true
      if !fracOk then none
      else
        let (expNeg, expDs, s4, expOk) := match s3 with
          | c :: rest =>
            if c = ('e') || c = ('E') then
              let (en, r1) := match rest with
                | d' :: r' => if d' = ('-') then (true, r') else if d' = ('+') then (false, r') else (false, rest)
                | [] => (false, rest)
              let (es, r2) := takeDigits r1
              if es.isEmpty then (false, ([] : List Char), s3, false)
              else (en, es, r2, true)
            else (false, ([] : List Char), s3, true)
          | [] => (false, ([] : List Char), s3, true)
        if !expOk then none
        else some (decimalValue neg intDs fracDs expNeg expDs, s4)

/-- Work items of the reference parser's recursion (one value, an array
just after `[`, an array after at least one element, an object just after
`{`, an object after at least one member, one `"key": value` member).  A
single request type keeps the recursion structural on the fuel. -/
inductive RReq where
  | rv (s : List Char)
  | rarrFirst (s : List Char)
  | rarrTail (s : List Char) (acc : List Json)
  | robjFirst (s : List Char)
  | robjTail (s : List Char) (acc : List (String × Json))
  | rmem (s : List Char)

/-- The reference parser's recursion: each step answers one work item,
returning a parsed value (with the member's key for `rmem`) and the
remainder. -/
def refGo : ℕ → RReq → Option (Option String × Json × List Char)
  | 0, _ => none
  | fuel + 1, .rv s0 =>
    let s := refSkipWs s0
    match s with
    | [] => none
    | c :: rest =>
      if c = ('n') then
        if startsWithL s ("null") then some (none, .null, s.drop 4) else none
      else if c = ('t') then
        if startsWithL s ("true") then some (none, .bool true, s.drop 4) else none
      else if c = ('f') then
        if startsWithL s ("false") then some (none, .bool false, s.drop 5) else none
      else if c = ('"') then
        match refStrAux (rest.length + 1) [] rest with
        | some (str, r) => some (none, .str str, r)
        | none => none
      else if c = ('[') then refGo fuel (.rarrFirst (refSkipWs rest))
      else if c = ('{') then refGo fuel (.robjFirst (refSkipWs rest))
      else
        match refNumber s with
        | some (q, r) => some (none, .num q, r)
        | none => none
  | fuel + 1, .rarrFirst s =>
    match s with
    | (']') :: rest => some (none, .arr [], rest)
    | _ =>
      match refGo fuel (.rv s) with
      | none => none
      | some (_, v, r) => refGo fuel (.rarrTail (refSkipWs r) [v])
  | fuel + 1, .rarrTail s acc =>
    match s with
    | (']') :: rest => some (none, .arr acc.reverse, rest)
    | (',') :: rest =>
      match refGo fuel (.rv rest) with
      | none => none
      | some (_, v, r) => refGo fuel (.rarrTail (refSkipWs r) (v :: acc))
    | _ => none
  | fuel + 1, .robjFirst s =>
    match s with
    | ('}') :: rest => some (none, .obj [], rest)
    | _ =>
      match refGo fuel (.rmem s) with
      | none => none
      | some (some k, v, r) => refGo fuel (.robjTail (refSkipWs r) [(k, v)])
      | some (none, _, _) => none
  | fuel + 1, .robjTail s acc =>
    match s with
    | ('}') :: rest => some (none, .obj acc.reverse, rest)
    | (',') :: rest =>
      match refGo fuel (.rmem (refSkipWs rest)) with
      | none => none
      | some (some k, v, r) => refGo fuel (.robjTail (refSkipWs r) ((k, v) :: acc))
      | some (none, _, _) => none
    | _ => none
  | fuel + 1, .rmem s =>
    match s with
    | ('"') :: rest =>
      match refStrAux (rest.length + 1) [] rest with
      | none => none
      | some (k, r) =>
        match refSkipWs r with
        | (':') :: r2 =>
          match refGo fuel (.rv r2) with
          | none => none
          | some (_, v, r3) => some (some k, v, r3)
        | _ => none
    | _ => none

/-- Modelled from the spec: `JSON.parse` of a whole document — one value with
nothing but whitespace after it. -/
def jsonParseRef (s : String) : Option Json :=
  match refGo (s.length + 1) (.rv s.data) with
  | none => none
  | some (_, v, r) => if (refSkipWs r).isEmpty then some v else none

/-! ### Spec-side selective-path inclusion (for claim C3)

Modelled from the spec's words, for comparison with the code's
`shouldParseCurrentPath`/`hasPath`: a node at `path` is included iff `path`
exactly matches a registered pattern or is a strict prefix of one, with a `*`
pattern segment matching any one concrete segment. -/

/-- One pattern segment matches one path segment (wildcard or equal). -/
def segMatches (pat seg : String) : Bool := pat = ("*") || pat = seg

/-- The path exactly matches the pattern, segmentwise with wildcards. -/
def specExactMatch (pat path : List String) : Bool :=
  pat.length = path.length && ((pat.zip path).all fun sc => segMatches sc.1 sc.2)

/-- The path is a strict prefix of the pattern, segmentwise with wildcards. -/
def specStrictPrefixOf (path pat : List String) : Bool :=
  path.length < pat.length && (((pat.take path.length).zip path).all fun sc => segMatches sc.1 sc.2)

/-- The spec's inclusion rule for a node at `path` under registered
`patterns`. -/
def specIncluded (patterns : List (List String)) (path : List String) : Bool :=
  patterns.any fun pat => specExactMatch pat path || specStrictPrefixOf path pat

/-- The error a `startObject`/`startArray` step raised, if any. -/
def errorOf {α : Type} : Except (Core × PError) α → Option PError
  | .error pe => some pe.2
  | .ok _ => none

/-! ### Concrete documents and initial states used by the theorems -/

/-- The document `{"a": 1}`. -/
def docSimple : String := "\x7b\"a\": 1\x7d"

/-- The document `{"a":{"b":{"c":1}}}` of the depth-limit example. -/
def docDeep : String := "\x7b\"a\":\x7b\"b\":\x7b\"c\":1\x7d\x7d\x7d"

/-- The document `{"data": {"values": [10, 20, 30]}}` of the aggregation
example. -/
def docAgg : String := "\x7b\"data\": \x7b\"values\": [10, 20, 30]\x7d\x7d"

/-- The document `{"a": "x/*y*/z"}`: a block-comment-shaped substring inside
a string literal. -/
def docComment : String := "\x7b\"a\": \"x/*y*/z\"\x7d"

/-- The text `{"a": "xz"}` that comment removal produces from `docComment`. -/
def docCommentOut : String := "\x7b\"a\": \"xz\"\x7d"

/-- The document `{"u": "http://e.com"}`: a line-comment-shaped substring
inside a string literal. -/
def docUrl : String := "\x7b\"u\": \"http://e.com\"\x7d"

/-- The text `{"u": "http:` that comment removal produces from `docUrl`. -/
def docUrlOut : String := "\x7b\"u\": \"http:"

/-- The selective-parsing test document
`{"name": "John", "age": 30, "city": "New York"}`. -/
def docSel : String := "\x7b\"name\": \"John\", \"age\": 30, \"city\": \"New York\"\x7d"

/-- A parser constructed with default options. -/
def initState : PState := {}

/-- A parser constructed with `maxDepth` set. -/
def initMaxDepth (n : ℕ) : PState := { core := { maxDepth := some n } }

/-- A parser constructed with `allowComments: true`. -/
def initComments : PState := { core := { allowComments := true } }

/-- A parser constructed with an `average` aggregation registered on
`data.values` (the constructor calls `addAggregation`). -/
def initAvg : PState := { core := addAggregation {} ("data.values") .average }

/-! ## Helper lemmas -/

set_option maxRecDepth 4000 in
/-- Zip-and-check over two segment lists, with the length condition, is the
pointwise relation `Forall₂`. -/
theorem pmAux : ∀ (xs ys : List String),
    ((xs.length = ys.length) ∧ ((xs.zip ys).all fun sc => sc.1 = ("*") || sc.1 = sc.2) = true)
      ↔ List.Forall₂ (fun s p => s = ("*") ∨ s = p) xs ys := by
  intro xs
  induction xs with
  | nil => intro ys; cases ys <;> simp
  | cons x xs ih =>
    intro ys
    cases ys with
    | nil => simp
    | cons y ys =>
      rw [List.forall₂_cons, ← ih ys]
      simp only [List.zip_cons_cons, List.all_cons, List.length_cons, Bool.and_eq_true,
        Bool.or_eq_true, decide_eq_true_eq, Nat.add_right_cancel_iff]
      tauto

/-- `pathMatches` decides exactly the pointwise wildcard-or-equal relation
between the dot-split pattern and the path (which forces equal lengths). -/
theorem pathMatchesIff (path : List String) (pat : String) :
    pathMatches path pat = true ↔
      List.Forall₂ (fun s p => s = ("*") ∨ s = p) (splitDots pat) path := by
  rw [← pmAux]
  simp only [pathMatches, Bool.and_eq_true, decide_eq_true_eq]
  exact and_congr_left' ⟨Eq.symm, Eq.symm⟩

/-- `applyTransforms` is the in-order chain of exactly the matching rules:
filtering the rule list first and folding the transform functions, each over
the previous one's output, computes the same value. -/
theorem applyTransformsChain : ∀ (ts : List TransformR) (path : List String) (v : Json),
    applyTransforms ts path v =
      (ts.filter fun t => pathMatches path t.path).foldl
        (fun acc t => t.fn acc path.getLast? path) v := by
  intro ts
  induction ts with
  | nil => intro path v; rfl
  | cons t ts ih =>
    intro path v
    by_cases h : pathMatches path t.path <;>
      simp only [applyTransforms, List.foldl_cons, List.filter_cons, h, if_true, if_false,
        Bool.false_eq_true, ite_false, ite_true] <;>
      exact ih path _

/-- Any `process` call that emits a `data` event leaves `rootObject` reset to
a fresh empty object: afterwards `getCurrentJson` is `{}`, or else the call
emitted nothing. -/
theorem c4resetAux (st : PState) (chunk : String) :
    getCurrentJson (process st chunk) = some (.obj []) ∨
      (process st chunk).dataEvents = st.dataEvents := by
  simp only [process, parseBuffer]
  rcases hsc : scanLoop _ _ _ _ with pe | c
  · right; rfl
  · dsimp only
    split
    · left; rfl
    · right; rfl

/-- `startObject` under a configured `maxDepth` and no filter: raises exactly
`Maximum depth of N exceeded` when the current depth has reached the limit,
succeeds otherwise. -/
theorem c6objAux (c : Core) (n : ℕ) :
    errorOf (startObject { c with maxDepth := some n, selectivePaths := none }) =
      if (n : ℤ) ≤ c.currentDepth then some (.depthExceeded n) else none := by
  by_cases h : (n : ℤ) ≤ c.currentDepth <;>
    simp [startObject, shouldParseCurrentPath, checkDepth, h, errorOf]

/-- `startArray` under a configured `maxDepth`: the same depth gate. -/
theorem c6arrAux (c : Core) (n : ℕ) :
    errorOf (startArray { c with maxDepth := some n }) =
      if (n : ℤ) ≤ c.currentDepth then some (.depthExceeded n) else none := by
  by_cases h : (n : ℤ) ≤ c.currentDepth <;>
    simp [startArray, checkDepth, h, errorOf]

/-! ## The claims -/

/-- C1.  The claim states chunk-boundary invariance: for every well-formed
document and every chunking, the `data`-event sequence equals the
single-chunk run's.  The code violates it: the well-formed document `42`
split into the chunks `4` and `2` emits the two values `4` and `2` (the
truncated prefix `4` is materialized by `parseValue`'s regex match against
the buffered text and completes a top-level value), while the single-chunk
run emits the one value `42`. -/
theorem chunkedVsSingleDivergence :
    (("4" : String) ++ "2") = "42" ∧
    (processAll initState ["4", "2"]).dataEvents = [some (.num 4), some (.num 2)] ∧
    (processAll initState ["42"]).dataEvents = [some (.num 42)] ∧
    (processAll initState ["4", "2"]).dataEvents ≠ (processAll initState ["42"]).dataEvents := by
  refine ⟨rfl, by with_unfolding_all rfl, by with_unfolding_all rfl, ?_⟩
  have h1 : (processAll initState ["4", "2"]).dataEvents = [some (.num 4), some (.num 2)] := by
    with_unfolding_all rfl
  have h2 : (processAll initState ["42"]).dataEvents = [some (.num 42)] := by
    with_unfolding_all rfl
  rw [h1, h2]
  simp

/-- C2.  The claim states that a token still extendable at the end of the
buffered input is never materialized from its partial text.  The code
violates it: the document `true` split as `tr` then `ue` emits the spurious
value `null` (the fallback of `parseValue` on the unrecognized partial
keyword `tr` completes a top-level value), where the single-chunk run emits
`true`. -/
theorem partialTokenMaterialized :
    (("tr" : String) ++ "ue") = "true" ∧
    (processAll initState ["tr", "ue"]).dataEvents = [some .null] ∧
    (processAll initState ["true"]).dataEvents = [some (.bool true)] ∧
    (processAll initState ["tr", "ue"]).dataEvents ≠ (processAll initState ["true"]).dataEvents := by
  refine ⟨rfl, by with_unfolding_all rfl, by with_unfolding_all rfl, ?_⟩
  have h1 : (processAll initState ["tr", "ue"]).dataEvents = [some .null] := by
    with_unfolding_all rfl
  have h2 : (processAll initState ["true"]).dataEvents = [some (.bool true)] := by
    with_unfolding_all rfl
  rw [h1, h2]
  simp

/-- C3.  The claim states the inclusion rule: a node is included iff its path
exactly matches a registered pattern (with `*` matching any one segment) or
is a strict prefix of one; with no patterns everything is included.  The code
decides inclusion by `PathTrie.hasPath`, which accepts only exact literal
matches: a strict prefix of a registered pattern is excluded, a wildcard
pattern never matches a concrete segment, and consequently a registered
filter excludes every node of the selective-parsing test document (no `data`
event at all).  Only the no-patterns half of the claim holds. -/
theorem selectiveInclusionDivergence :
    Trie.hasPath (buildTrie [["user", "name"], ["user", "age"]]) ["user"] = false ∧
    specIncluded [["user", "name"], ["user", "age"]] ["user"] = true ∧
    Trie.hasPath (buildTrie [["users", "*", "name"]]) ["users", "x", "name"] = false ∧
    specIncluded [["users", "*", "name"]] ["users", "x", "name"] = true ∧
    ((setSelectivePaths initState ["name", "age"]).map
        fun st => (process st docSel).dataEvents) = .ok [] ∧
    (∀ c : Core, shouldParseCurrentPath { c with selectivePaths := none } = true) := by
  refine ⟨by with_unfolding_all rfl, by with_unfolding_all rfl, by with_unfolding_all rfl,
    by with_unfolding_all rfl, by with_unfolding_all rfl, fun c => rfl⟩

/-- C4 counterexample.  After feeding the whole document `{"a": 1}` (default
options), `getCurrentJson()` returns the empty object, not the
standard-library parse of the document. -/
theorem roundTripCounterexample :
    getCurrentJson (processAll initState [docSimple]) ≠ jsonParseRef docSimple ∧
    getCurrentJson (processAll initState [docSimple]) = some (.obj []) ∧
    jsonParseRef docSimple = some (.obj [("a", .num 1)]) := by
  have h1 : getCurrentJson (processAll initState [docSimple]) = some (.obj []) := by
    with_unfolding_all rfl
  have h2 : jsonParseRef docSimple = some (.obj [("a", .num 1)]) := by
    with_unfolding_all rfl
  refine ⟨?_, h1, h2⟩
  rw [h1, h2]
  simp

/-- C4 amended.  When a document completes, the parser emits the completed
value through the `data` event and immediately resets the root, so
`getCurrentJson()` after full input returns the empty object; the
standard-library-equal value is the emitted one (here for `{"a": 1}`). -/
theorem roundTripAmended :
    (∀ (st : PState) (chunk : String),
        getCurrentJson (process st chunk) = some (.obj []) ∨
          (process st chunk).dataEvents = st.dataEvents) ∧
    (processAll initState [docSimple]).dataEvents = [jsonParseRef docSimple] ∧
    getCurrentJson (processAll initState [docSimple]) = some (.obj []) := by
  refine ⟨c4resetAux, by with_unfolding_all rfl, by with_unfolding_all rfl⟩

/-- C5.  The claim states that wildcard patterns such as `users.*.name`
register successfully.  The validation regex `^[a-zA-Z0-9.]+$` has no `*`, so
the code rejects them with `Invalid path: users.*.name` (the same error the
claim correctly predicts for `name!`); patterns of letters, digits and dots
are accepted. -/
theorem wildcardPatternRejected :
    setSelectivePaths initState ["users.*.name"] = .error (.invalidPath ("users.*.name")) ∧
    setSelectivePaths initState ["name!"] = .error (.invalidPath ("name!")) ∧
    errMessage (.invalidPath ("name!")) = "Invalid path: name!" ∧
    (setSelectivePaths initState ["users.name", "age"]).isOk = true := by
  refine ⟨by with_unfolding_all rfl, by with_unfolding_all rfl, rfl, by with_unfolding_all rfl⟩

/-- C6.  With `maxDepth` configured to `N` and no filter, opening a container
(`{` or `[`) succeeds exactly while the current depth is strictly below `N`
and otherwise raises the error whose message is `Maximum depth of N
exceeded`; in particular `{"a":{"b":{"c":1}}}` with `maxDepth = 2` raises the
depth-exceeded error (and completes no value). -/
theorem depthLimitEnforced :
    (∀ (c : Core) (n : ℕ),
        errorOf (startObject { c with maxDepth := some n, selectivePaths := none }) =
          if (n : ℤ) ≤ c.currentDepth then some (.depthExceeded n) else none) ∧
    (∀ (c : Core) (n : ℕ),
        errorOf (startArray { c with maxDepth := some n }) =
          if (n : ℤ) ≤ c.currentDepth then some (.depthExceeded n) else none) ∧
    (processAll (initMaxDepth 2) [docDeep]).errors = [.depthExceeded 2] ∧
    (processAll (initMaxDepth 2) [docDeep]).dataEvents = [] ∧
    errMessage (.depthExceeded 2) = "Maximum depth of 2 exceeded" := by
  refine ⟨c6objAux, c6arrAux, by with_unfolding_all rfl, by with_unfolding_all rfl, rfl⟩

/-- C7.  A transform rule applies exactly when its dot-split pattern relates
pointwise (wildcard-or-equal, hence equal length — never a strict prefix) to
the value's path, and `applyTransforms` chains exactly the matching rules in
registration order, each receiving the previous output. -/
theorem transformMatchingAndChaining :
    (∀ (path : List String) (pat : String),
        pathMatches path pat = true ↔
          List.Forall₂ (fun s p => s = ("*") ∨ s = p) (splitDots pat) path) ∧
    (∀ (path : List String) (pat : String),
        path.length < (splitDots pat).length → pathMatches path pat = false) ∧
    (∀ (ts : List TransformR) (path : List String) (v : Json),
        applyTransforms ts path v =
          (ts.filter fun t => pathMatches path t.path).foldl
            (fun acc t => t.fn acc path.getLast? path) v) := by
  refine ⟨pathMatchesIff, ?_, applyTransformsChain⟩
  intro path pat h
  cases hb : pathMatches path pat with
  | false => rfl
  | true =>
    have hlen := ((pathMatchesIff path pat).mp hb).length_eq
    omega

/-- C7 witness: a strict-prefix path never matches, at a concrete input. -/
theorem transformMatchingAndChainingWitness :
    pathMatches ["a"] ("a.b") = false :=
  transformMatchingAndChaining.2.1 ["a"] ("a.b") (by decide)

/-- C8.  The claim's update formula `(v*c + x)/(c + 1)` is what
`updateAggregation` computes for `average`, but the end-to-end example fails:
with `average` registered on `data.values` and `{"data": {"values": [10, 20,
30]}}` streamed in, the final aggregation result is `0`, not `20` — the path
tracker pushes `""` for every object (the pending key was already consumed)
and nothing for arrays, so the pattern never matches and the accumulator is
never updated. -/
theorem averageAggregationDivergence :
    (∀ (v x : ℚ) (cnt : ℕ),
        updateAggregation ⟨.average, v, some cnt⟩ (.num x) =
          ⟨.average, (v * cnt + x) / (cnt + 1), some (cnt + 1)⟩) ∧
    getAggregationResults (processAll initAvg [docAgg]) = [("data.values", 0)] ∧
    ((0 : ℚ) ≠ 20) := by
  refine ⟨fun v x cnt => rfl, by with_unfolding_all rfl, by norm_num⟩

/-- C9.  The claim states that an unmatched closing bracket is reported as a
typed syntax error and completes nothing.  The code has no such error path:
processing the single chunk `]` pops the empty stack, reports no error at
all, marks the (`undefined`) root complete and emits a `data` event carrying
`undefined`, and leaves the unconsumed `]` in the buffer. -/
theorem unmatchedCloserNoError :
    (process initState "]").errors = [] ∧
    (process initState "]").dataEvents = [none] ∧
    (process initState "]").core.buffer = ("]").data := by
  refine ⟨by with_unfolding_all rfl, by with_unfolding_all rfl, by with_unfolding_all rfl⟩

/-- C10.  With `allowComments` enabled, comment removal is a pure textual
substitution on the raw chunk before any tokenization: `/*...*/` and `//...`
substrings are deleted even inside JSON string literals, so `{"a":
"x/*y*/z"}` parses to the value `xz` under the parser while the
standard-library parse of the same text yields `x/*y*/z`. -/
theorem commentStrippingTextual :
    removeComments docComment.data = docCommentOut.data ∧
    removeComments docUrl.data = docUrlOut.data ∧
    (processAll initComments [docComment]).dataEvents = [some (.obj [("a", .str "xz")])] ∧
    jsonParseRef docComment = some (.obj [("a", .str "x/*y*/z")]) ∧
    (processAll initComments [docComment]).dataEvents ≠ [jsonParseRef docComment] := by
  have h1 : (processAll initComments [docComment]).dataEvents
      = [some (.obj [("a", .str "xz")])] := by with_unfolding_all rfl
  have h2 : jsonParseRef docComment = some (.obj [("a", .str "x/*y*/z")]) := by
    with_unfolding_all rfl
  refine ⟨by with_unfolding_all rfl, by with_unfolding_all rfl, h1, h2, ?_⟩
  rw [h1, h2]
  simp

end SJP
